import Mathlib

/-!
Verification of the pyOSCeleton skeleton-data aggregator (src/OSCeleton.py).

The Python module is shallowly embedded: the `Point` class becomes a record of
rational coordinates (floats idealised as exact rationals for the arithmetic
the aggregator performs), `Skeleton` a record holding the per-user joint and
orientation dictionaries (dictionaries become association lists with
unique-key update/erase/lookup operations), and the `OSCeleton` class a state
record with one pure state-transformer per registered callback.  The
magnitude/normalize operations involve square roots, so they are modelled on
a real-valued copy of the point type (`PointR`).  Message handling over time
is modelled by an `Event` type and a `step`/`run` relation; a stamped shadow
machine (`SOSCeleton`) instruments each completed-frame promotion with the
frame counter at promotion time to reason about drain uniqueness.
-/

namespace PyOSCeleton

/-- Association-list lookup: first entry whose key matches, as a Python dict
read `m[k]` / `k in m`. -/
def mapLookup {K V : Type} [DecidableEq K] : List (K × V) → K → Option V
  | [], _ => none
  | p :: rest, k => if p.1 = k then some p.2 else mapLookup rest k

/-- Association-list update, as a Python dict write `m[k] = v`: replace the
entry for `k` when present, otherwise append a new entry. -/
def mapUpd {K V : Type} [DecidableEq K] : List (K × V) → K → V → List (K × V)
  | [], k, v => [(k, v)]
  | p :: rest, k, v => if p.1 = k then (k, v) :: rest else p :: mapUpd rest k v

/-- Association-list deletion, as a Python dict `del m[k]` on a dict whose
keys are unique (every entry for `k` is removed). -/
def mapErase {K V : Type} [DecidableEq K] (m : List (K × V)) (k : K) : List (K × V) :=
  m.filter (fun p => !decide (p.1 = k))

/-- `Point` (src/OSCeleton.py lines 57-183): a 3-dimensional point; the float
coordinates are modelled as rationals. -/
structure Point where
  x : ℚ
  y : ℚ
  z : ℚ
deriving DecidableEq

/-- `Point.__eq__`: componentwise equality test returning a boolean. -/
def Point.eq (self other : Point) : Bool :=
  if self.x = other.x ∧ self.y = other.y ∧ self.z = other.z then true else false

/-- `Point.__add__`: componentwise sum, returning a new point. -/
def Point.add (self other : Point) : Point :=
  ⟨self.x + other.x, self.y + other.y, self.z + other.z⟩

/-- `Point.__sub__`: componentwise difference, returning a new point. -/
def Point.sub (self other : Point) : Point :=
  ⟨self.x - other.x, self.y - other.y, self.z - other.z⟩

/-- `Point.copy`: a new point with the same coordinates. -/
def Point.copy (self : Point) : Point :=
  ⟨self.x, self.y, self.z⟩

/-- `Point.vals`: the coordinates as a list. -/
def Point.vals (self : Point) : List ℚ :=
  [self.x, self.y, self.z]

/-- Real-valued copy of `Point` for the operations that leave the rationals
(`magnitude` takes a square root): float arithmetic idealised over ℝ. -/
structure PointR where
  x : ℝ
  y : ℝ
  z : ℝ

/-- `Point.magnitude`: the Euclidean norm `sqrt(x**2 + y**2 + z**2)`. -/
noncomputable def PointR.magnitude (self : PointR) : ℝ :=
  Real.sqrt (self.x ^ 2 + self.y ^ 2 + self.z ^ 2)

/-- `Point.normalize`: divides each coordinate by the magnitude (in the
source this mutates the point in place; here the mutated value is returned).
The division is performed unconditionally, exactly as in the source: there is
no zero-magnitude guard. -/
noncomputable def PointR.normalize (self : PointR) : PointR :=
  ⟨self.x / self.magnitude, self.y / self.magnitude, self.z / self.magnitude⟩

/-- `Skeleton` (src/OSCeleton.py lines 185-234): a user's joint positions
(`joints`), joint orientation data (`orient`, each value a list of three
3-element rows), and the user's number (`id`). -/
structure Skeleton where
  id : Nat
  joints : List (String × Point)
  orient : List (String × List (List ℚ))
deriving DecidableEq

/-- `Skeleton.__contains__`: `set(wanted) <= set(self.joints)` — true iff
every wanted label is a key of `joints`. -/
def Skeleton.contains (self : Skeleton) (wanted : List String) : Bool :=
  wanted.all (fun l => decide (l ∈ self.joints.map Prod.fst))

/-- `Skeleton.copy_joints`: a new mapping with the same keys and copied
points. -/
def Skeleton.copy_joints (self : Skeleton) : List (String × Point) :=
  self.joints.map (fun p => (p.1, p.2.copy))

/-- `Skeleton.clear`: empties both `joints` and `orient` in place. -/
def Skeleton.clear (self : Skeleton) : Skeleton :=
  { self with joints := [], orient := [] }

/-- `OSCeleton` (src/OSCeleton.py lines 236-353): the aggregator state.
`users` holds each user's last completed, unconsumed skeleton; `_users` the
in-progress skeleton being assembled; `frames` counts completed-frame
promotions; `lostUsers` logs lost users; `realWorld` selects the coordinate
transform.  (The OSC server object and callback registration are transport
concerns and carry no aggregator state.) -/
structure OSCeleton where
  users : List (Nat × Skeleton)
  _users : List (Nat × Skeleton)
  frames : Nat
  lostUsers : List Nat
  realWorld : Bool
deriving DecidableEq

/-- The aggregator's initial state: class attributes `users = {}`,
`_users = {}`, `frames = 0`, `lostUsers = []`, `realWorld = False`. -/
def OSCeleton.init : OSCeleton :=
  ⟨[], [], 0, [], false⟩

/-- `OSCeleton.new_user_callback`: `self._users[args[0]] = Skeleton(args[0])`
(unconditionally installs a fresh skeleton for the user). -/
def OSCeleton.new_user_callback (self : OSCeleton) (u : Nat) : OSCeleton :=
  { self with _users := mapUpd self._users u ⟨u, [], []⟩ }

/-- `OSCeleton.lost_user_callback`: inside one try/except KeyError —
`del self._users[u]`, then `self.lostUsers.append(u)`, then
`del self.users[u]`.  When `u` is not in `_users` the first delete raises and
nothing at all happens; when the final delete raises (u not in `users`) the
earlier effects stand. -/
def OSCeleton.lost_user_callback (self : OSCeleton) (u : Nat) : OSCeleton :=
  if (mapLookup self._users u).isSome then
    { self with _users := mapErase self._users u,
                lostUsers := self.lostUsers ++ [u],
                users := mapErase self.users u }
  else self

/-- `OSCeleton.do_nothing_callback`: does absolutely nothing. -/
def OSCeleton.do_nothing_callback (self : OSCeleton) : OSCeleton :=
  self

/-- `OSCeleton.new_skeleton_callback`: prints only; no state change. -/
def OSCeleton.new_skeleton_callback (self : OSCeleton) (_u : Nat) : OSCeleton :=
  self

/-- The point built from a raw coordinate triple in `joint_callback`: in
real-world mode `Point(1280 - x*2560, 960 - y*1920, -z*1280)`, otherwise
`Point(x, y, z)` unchanged (src/OSCeleton.py lines 307-315). -/
def jointPoint (realWorld : Bool) (x y z : ℚ) : Point :=
  if realWorld then ⟨1280 - x * 2560, 960 - y * 1920, -z * 1280⟩ else ⟨x, y, z⟩

/-- `OSCeleton.joint_callback` (src/OSCeleton.py lines 293-315), with
`label = str(args[0])`, `u = args[1]`, `(x, y, z) = args[2:]`:
auto-create the user's in-progress skeleton if absent; if the label is
already a key of its joints, promote — `users[u]` (created empty if absent)
receives a deep copy of the joints and a copy of the orientations, the
in-progress skeleton is cleared in place, and `frames` is incremented; then
store the (possibly transformed) point under the label in the in-progress
joints. -/
def OSCeleton.joint_callback (self : OSCeleton) (label : String) (u : Nat)
    (x y z : ℚ) : OSCeleton :=
  let s1 := if (mapLookup self._users u).isSome then self
            else { self with _users := mapUpd self._users u ⟨u, [], []⟩ }
  let sk := (mapLookup s1._users u).getD ⟨u, [], []⟩
  let s2 :=
    if (mapLookup sk.joints label).isSome then
      let prev := (mapLookup s1.users u).getD ⟨u, [], []⟩
      { s1 with users := mapUpd s1.users u ⟨prev.id, sk.copy_joints, sk.orient⟩,
                _users := mapUpd s1._users u sk.clear,
                frames := s1.frames + 1 }
    else s1
  let pt := jointPoint s2.realWorld x y z
  let sk2 := (mapLookup s2._users u).getD ⟨u, [], []⟩
  { s2 with _users := mapUpd s2._users u ({ sk2 with joints := mapUpd sk2.joints label pt }) }

/-- `OSCeleton.orient_callback` (src/OSCeleton.py lines 317-325):
auto-create the user's in-progress skeleton if absent, then store
`[args[2:5], args[5:8], args[8:]]` under `str(args[0])` in its orientation
dictionary. -/
def OSCeleton.orient_callback (self : OSCeleton) (label : String) (u : Nat)
    (m0 m1 m2 m3 m4 m5 m6 m7 m8 : ℚ) : OSCeleton :=
  let s1 := if (mapLookup self._users u).isSome then self
            else { self with _users := mapUpd self._users u ⟨u, [], []⟩ }
  let sk := (mapLookup s1._users u).getD ⟨u, [], []⟩
  let sk' := { sk with orient := mapUpd sk.orient label [[m0, m1, m2], [m3, m4, m5], [m6, m7, m8]] }
  { s1 with _users := mapUpd s1._users u sk' }

/-- `OSCeleton.get_users`: the list of user ids currently in `_users`. -/
def OSCeleton.get_users (self : OSCeleton) : List Nat :=
  self._users.map Prod.fst

/-- `OSCeleton.get_new_skeletons`: `tmp = self.users.values();
self.users.clear(); return tmp` — returns the unconsumed completed skeletons
and the state with the completed map emptied, as one pure step. -/
def OSCeleton.get_new_skeletons (self : OSCeleton) : List Skeleton × OSCeleton :=
  (self.users.map Prod.snd, { self with users := [] })

/-- One decoded inbound message or consumer call, as routed by the handler
table registered in `OSCeleton.__init__` plus the consumer-facing accessors
(`drain` = `get_new_skeletons`, `getUsers` = `get_users`, `setRealWorld` =
assignment to the `realWorld` flag, `unknown` = any unrecognised address
pattern). -/
inductive Event where
  | new_user : Nat → Event
  | lost_user : Nat → Event
  | new_skel : Nat → Event
  | joint : String → Nat → ℚ → ℚ → ℚ → Event
  | orient : String → Nat → ℚ → ℚ → ℚ → ℚ → ℚ → ℚ → ℚ → ℚ → ℚ → Event
  | drain : Event
  | getUsers : Event
  | setRealWorld : Bool → Event
  | unknown : Event
deriving DecidableEq

/-- The aggregator's reaction to one event: dispatch to the matching
callback or accessor. -/
def OSCeleton.step (self : OSCeleton) : Event → OSCeleton
  | .new_user u => self.new_user_callback u
  | .lost_user u => self.lost_user_callback u
  | .new_skel u => self.new_skeleton_callback u
  | .joint l u x y z => self.joint_callback l u x y z
  | .orient l u a b c d e f g h i => self.orient_callback l u a b c d e f g h i
  | .drain => self.get_new_skeletons.2
  | .getUsers => self
  | .setRealWorld b => { self with realWorld := b }
  | .unknown => self.do_nothing_callback

/-- Process a sequence of events in order. -/
def OSCeleton.run (self : OSCeleton) (es : List Event) : OSCeleton :=
  es.foldl OSCeleton.step self

/-- The in-progress skeleton `joint_callback`/`orient_callback` operate on
for user `u`: the existing one, or the fresh one auto-created when absent. -/
def curSkel (s : OSCeleton) (u : Nat) : Skeleton :=
  (mapLookup s._users u).getD ⟨u, [], []⟩

/-- The invariant of claim C10: every user with an unconsumed completed
snapshot also has an in-progress snapshot. -/
def UsersSubset (s : OSCeleton) : Prop :=
  ∀ u : Nat, u ∈ s.users.map Prod.fst → u ∈ s._users.map Prod.fst

/-- Ghost-instrumented aggregator state for drain-uniqueness reasoning: like
`OSCeleton`, but each completed snapshot carries the value of `frames` at the
moment of its promotion (its promotion stamp).  Erasing the stamps recovers
the real state (`SOSCeleton.toOSCeleton`), and `SOSCeleton.sstep` mirrors
`OSCeleton.step` exactly (theorem `toOSCeleton_sstep`), so facts about the
stamps transport to executions of the real aggregator. -/
structure SOSCeleton where
  users : List (Nat × (Nat × Skeleton))
  _users : List (Nat × Skeleton)
  frames : Nat
  lostUsers : List Nat
  realWorld : Bool

/-- Erase the promotion stamps, recovering the real aggregator state. -/
def SOSCeleton.toOSCeleton (t : SOSCeleton) : OSCeleton :=
  ⟨t.users.map (fun p => (p.1, p.2.2)), t._users, t.frames, t.lostUsers, t.realWorld⟩

/-- The stamped initial state. -/
def SOSCeleton.init : SOSCeleton :=
  ⟨[], [], 0, [], false⟩

/-- The in-progress skeleton the stamped machine operates on for user `u`. -/
def curSkelS (t : SOSCeleton) (u : Nat) : Skeleton :=
  (mapLookup t._users u).getD ⟨u, [], []⟩

/-- The stamped machine's transition: identical to `OSCeleton.step` except
that a promotion stores the pair `(frames-at-promotion, skeleton)`. -/
def SOSCeleton.sstep (t : SOSCeleton) : Event → SOSCeleton
  | .new_user u => { t with _users := mapUpd t._users u ⟨u, [], []⟩ }
  | .lost_user u =>
      if (mapLookup t._users u).isSome then
        { t with _users := mapErase t._users u,
                 lostUsers := t.lostUsers ++ [u],
                 users := mapErase t.users u }
      else t
  | .joint L u x y z =>
      if (mapLookup (curSkelS t u).joints L).isSome then
        ⟨mapUpd t.users u ⟨t.frames, ⟨((mapLookup t.users u).getD ⟨0, ⟨u, [], []⟩⟩).2.id,
            (curSkelS t u).copy_joints, (curSkelS t u).orient⟩⟩,
         mapUpd t._users u ⟨(curSkelS t u).id, [(L, jointPoint t.realWorld x y z)], []⟩,
         t.frames + 1, t.lostUsers, t.realWorld⟩
      else
        ⟨t.users,
         mapUpd t._users u ⟨(curSkelS t u).id,
            mapUpd (curSkelS t u).joints L (jointPoint t.realWorld x y z),
            (curSkelS t u).orient⟩,
         t.frames, t.lostUsers, t.realWorld⟩
  | .orient L u m0 m1 m2 m3 m4 m5 m6 m7 m8 =>
      ⟨t.users,
       mapUpd t._users u ⟨(curSkelS t u).id, (curSkelS t u).joints,
          mapUpd (curSkelS t u).orient L [[m0, m1, m2], [m3, m4, m5], [m6, m7, m8]]⟩,
       t.frames, t.lostUsers, t.realWorld⟩
  | .drain => { t with users := [] }
  | .new_skel _ => t
  | .getUsers => t
  | .setRealWorld b => { t with realWorld := b }
  | .unknown => t

/-- Process a sequence of events on the stamped machine. -/
def SOSCeleton.srun (t : SOSCeleton) (es : List Event) : SOSCeleton :=
  es.foldl SOSCeleton.sstep t

/-- All promotion stamps in the completed map are below the frame counter. -/
def StampsLT (t : SOSCeleton) : Prop :=
  ∀ p ∈ t.users, p.2.1 < t.frames

/-- All promotion stamps in the completed map are at least `f`, and so is
the frame counter. -/
def StampsGE (f : Nat) (t : SOSCeleton) : Prop :=
  f ≤ t.frames ∧ ∀ p ∈ t.users, f ≤ p.2.1

/-! ### Lemmas about the association-list dictionary operations -/

theorem mapLookup_mapUpd {K V : Type} [DecidableEq K]
    (m : List (K × V)) (k k' : K) (v : V) :
    mapLookup (mapUpd m k v) k' = if k' = k then some v else mapLookup m k' := by
  induction m with
  | nil =>
    by_cases h : k' = k <;> simp [mapUpd, mapLookup, h, Ne.symm]
  | cons p rest ih =>
    by_cases hp : p.1 = k
    · by_cases h : k' = k
      · subst h
        simp [mapUpd, mapLookup, hp]
      · have : ¬k = k' := fun hh => h hh.symm
        simp [mapUpd, mapLookup, hp, h, this]
    · by_cases hq : p.1 = k'
      · have : ¬k' = k := fun hh => hp (hq.trans hh)
        simp [mapUpd, mapLookup, hp, hq, this]
      · simp [mapUpd, mapLookup, hp, hq, ih]

theorem mapUpd_mapUpd {K V : Type} [DecidableEq K]
    (m : List (K × V)) (k : K) (v w : V) :
    mapUpd (mapUpd m k v) k w = mapUpd m k w := by
  induction m with
  | nil => simp [mapUpd]
  | cons p rest ih =>
    by_cases h : p.1 = k <;> simp [mapUpd, h, ih]

theorem mapLookup_mapErase {K V : Type} [DecidableEq K]
    (m : List (K × V)) (k k' : K) :
    mapLookup (mapErase m k) k' = if k' = k then none else mapLookup m k' := by
  induction m with
  | nil => simp [mapErase, mapLookup]
  | cons p rest ih =>
    simp only [mapErase, List.filter_cons] at ih ⊢
    by_cases hp : p.1 = k
    · rw [if_neg (by simp [hp]), ih]
      by_cases h : k' = k
      · simp [h]
      · have : ¬p.1 = k' := by
          rw [hp]
          exact fun hh => h hh.symm
        simp [h, mapLookup, this]
    · rw [if_pos (by simp [hp])]
      by_cases hq : p.1 = k'
      · have : ¬k' = k := by
          rw [← hq]
          exact fun hh => hp hh
        simp [mapLookup, hq, this]
      · simp [mapLookup, hq, ih]

theorem mem_keys_iff_lookup {K V : Type} [DecidableEq K]
    (m : List (K × V)) (k : K) :
    k ∈ m.map Prod.fst ↔ ∃ v, mapLookup m k = some v := by
  induction m with
  | nil => simp [mapLookup]
  | cons p rest ih =>
    by_cases h : p.1 = k
    · subst h
      simp [mapLookup]
    · have h' : ¬k = p.1 := fun hh => h hh.symm
      simp [mapLookup, h, h', ih]

theorem mem_keys_mapUpd {K V : Type} [DecidableEq K]
    (m : List (K × V)) (k : K) (v : V) (a : K) :
    a ∈ (mapUpd m k v).map Prod.fst ↔ a = k ∨ a ∈ m.map Prod.fst := by
  rw [mem_keys_iff_lookup, mem_keys_iff_lookup]
  by_cases h : a = k <;> simp [mapLookup_mapUpd, h]

theorem mem_keys_mapErase {K V : Type} [DecidableEq K]
    (m : List (K × V)) (k : K) (a : K) :
    a ∈ (mapErase m k).map Prod.fst ↔ a ∈ m.map Prod.fst ∧ a ≠ k := by
  rw [mem_keys_iff_lookup, mem_keys_iff_lookup]
  by_cases h : a = k <;> simp [mapLookup_mapErase, h]

theorem mem_mapUpd {K V : Type} [DecidableEq K]
    (m : List (K × V)) (k : K) (v : V) (p : K × V) (hp : p ∈ mapUpd m k v) :
    p = (k, v) ∨ p ∈ m := by
  induction m with
  | nil => simpa [mapUpd] using hp
  | cons q rest ih =>
    by_cases h : q.1 = k
    · rcases (by simpa [mapUpd, h] using hp : p = (k, v) ∨ p ∈ rest) with h1 | h1
      · exact Or.inl h1
      · exact Or.inr (List.mem_cons_of_mem q h1)
    · rcases (by simpa [mapUpd, h] using hp : p = q ∨ p ∈ mapUpd rest k v) with h1 | h1
      · exact Or.inr (h1 ▸ List.mem_cons_self q rest)
      · rcases ih h1 with h2 | h2
        · exact Or.inl h2
        · exact Or.inr (List.mem_cons_of_mem q h2)

theorem mem_mapErase {K V : Type} [DecidableEq K]
    (m : List (K × V)) (k : K) (p : K × V) (hp : p ∈ mapErase m k) :
    p ∈ m := by
  simp [mapErase] at hp
  exact hp.1

theorem mapLookup_map_val {K V W : Type} [DecidableEq K]
    (m : List (K × V)) (f : V → W) (k : K) :
    mapLookup (m.map (fun p => (p.1, f p.2))) k = (mapLookup m k).map f := by
  induction m with
  | nil => simp [mapLookup]
  | cons p rest ih =>
    by_cases h : p.1 = k <;> simp [mapLookup, h, ih]

theorem map_val_mapUpd {K V W : Type} [DecidableEq K]
    (m : List (K × V)) (f : V → W) (k : K) (v : V) :
    (mapUpd m k v).map (fun p => (p.1, f p.2)) =
      mapUpd (m.map (fun p => (p.1, f p.2))) k (f v) := by
  induction m with
  | nil => simp [mapUpd]
  | cons p rest ih =>
    by_cases h : p.1 = k <;> simp [mapUpd, h, ih]

theorem map_val_mapErase {K V W : Type} [DecidableEq K]
    (m : List (K × V)) (f : V → W) (k : K) :
    (mapErase m k).map (fun p => (p.1, f p.2)) =
      mapErase (m.map (fun p => (p.1, f p.2))) k := by
  induction m with
  | nil => simp [mapErase]
  | cons p rest ih =>
    simp only [mapErase, List.filter_cons, List.map_cons] at ih ⊢
    by_cases h : p.1 = k <;> simp [h, ih]

/-! ### Characterisations of the two auto-creating handlers -/

/-- One-update normal form of `joint_callback`: either a promotion (label
already a joint key) followed by storing the sole new joint, or a plain
store into the in-progress joints. -/
theorem joint_callback_char (s : OSCeleton) (L : String) (u : Nat) (x y z : ℚ) :
    s.joint_callback L u x y z =
      if (mapLookup (curSkel s u).joints L).isSome then
        ⟨mapUpd s.users u ⟨((mapLookup s.users u).getD ⟨u, [], []⟩).id,
            (curSkel s u).copy_joints, (curSkel s u).orient⟩,
         mapUpd s._users u ⟨(curSkel s u).id, [(L, jointPoint s.realWorld x y z)], []⟩,
         s.frames + 1, s.lostUsers, s.realWorld⟩
      else
        ⟨s.users,
         mapUpd s._users u
           ⟨(curSkel s u).id, mapUpd (curSkel s u).joints L (jointPoint s.realWorld x y z),
            (curSkel s u).orient⟩,
         s.frames, s.lostUsers, s.realWorld⟩ := by
  unfold OSCeleton.joint_callback curSkel
  rcases hu : mapLookup s._users u with _ | sk
  · simp only [hu, Option.isSome_none, Bool.false_eq_true, if_false, Option.getD_none,
      mapLookup_mapUpd, if_pos rfl, Option.getD_some, mapLookup, Option.isSome_some,
      mapUpd_mapUpd]
    rfl
  · simp only [hu, Option.isSome_some, if_true, Option.getD_some]
    rcases hj : (mapLookup sk.joints L).isSome with _ | _
    · simp only [hj, Bool.false_eq_true, if_false, hu, mapLookup_mapUpd, if_pos rfl,
        Option.getD_some, mapUpd_mapUpd]
    · simp only [hj, if_true, hu, mapLookup_mapUpd, if_pos rfl, Option.getD_some,
        mapUpd_mapUpd, Skeleton.clear]
      rfl

/-- One-update normal form of `orient_callback`. -/
theorem orient_callback_char (s : OSCeleton) (L : String) (u : Nat)
    (m0 m1 m2 m3 m4 m5 m6 m7 m8 : ℚ) :
    s.orient_callback L u m0 m1 m2 m3 m4 m5 m6 m7 m8 =
      ⟨s.users,
       mapUpd s._users u
         ⟨(curSkel s u).id, (curSkel s u).joints,
          mapUpd (curSkel s u).orient L [[m0, m1, m2], [m3, m4, m5], [m6, m7, m8]]⟩,
       s.frames, s.lostUsers, s.realWorld⟩ := by
  unfold OSCeleton.orient_callback curSkel
  rcases hu : mapLookup s._users u with _ | sk
  · simp only [hu, Option.isSome_none, Bool.false_eq_true, if_false, Option.getD_none,
      mapLookup_mapUpd, if_pos rfl, Option.getD_some, mapUpd_mapUpd]
    rfl
  · simp only [hu, Option.isSome_some, if_true, Option.getD_some]

/-! ### Copying is value-identity in the pure model -/

theorem Point.copy_eq (p : Point) : p.copy = p :=
  rfl

theorem copy_joints_eq (sk : Skeleton) : sk.copy_joints = sk.joints := by
  unfold Skeleton.copy_joints
  have h : (fun p : String × Point => (p.1, p.2.copy)) = fun p => p := by
    funext p
    rfl
  rw [h]
  exact List.map_id _

/-! ### The stamped machine projects onto the real aggregator -/

theorem toOSCeleton_sstep (t : SOSCeleton) (e : Event) :
    (t.sstep e).toOSCeleton = t.toOSCeleton.step e := by
  cases e with
  | new_user u => rfl
  | lost_user u =>
    simp only [SOSCeleton.sstep, OSCeleton.step, OSCeleton.lost_user_callback,
      SOSCeleton.toOSCeleton]
    by_cases h : (mapLookup t._users u).isSome = true
    · simp [h, map_val_mapErase]
    · simp [h]
  | new_skel u => rfl
  | joint L u x y z =>
    simp only [OSCeleton.step]
    rw [joint_callback_char]
    rw [show curSkel t.toOSCeleton u = curSkelS t u from rfl]
    rw [show t.toOSCeleton.realWorld = t.realWorld from rfl]
    by_cases h : (mapLookup (curSkelS t u).joints L).isSome = true
    · rw [if_pos h]
      simp only [SOSCeleton.sstep, h, if_true, SOSCeleton.toOSCeleton]
      rw [map_val_mapUpd t.users Prod.snd u]
      have hid : ((mapLookup (t.users.map (fun p : Nat × Nat × Skeleton => (p.1, p.2.2))) u).getD
            ⟨u, [], []⟩).id = ((mapLookup t.users u).getD ⟨0, ⟨u, [], []⟩⟩).2.id := by
        rw [mapLookup_map_val t.users Prod.snd u]
        cases mapLookup t.users u <;> rfl
      rw [hid]
    · rw [if_neg h]
      simp only [SOSCeleton.sstep, h, Bool.false_eq_true, if_false, SOSCeleton.toOSCeleton]
  | orient L u m0 m1 m2 m3 m4 m5 m6 m7 m8 =>
    simp only [OSCeleton.step]
    rw [orient_callback_char]
    rfl
  | drain => rfl
  | getUsers => rfl
  | setRealWorld b => rfl
  | unknown => rfl

theorem toOSCeleton_srun (t : SOSCeleton) (es : List Event) :
    (t.srun es).toOSCeleton = t.toOSCeleton.run es := by
  induction es generalizing t with
  | nil => rfl
  | cons e rest ih =>
    show ((t.sstep e).srun rest).toOSCeleton = _
    rw [ih, toOSCeleton_sstep]
    rfl

/-! ### Frame-counter monotonicity and promotion stamps -/

theorem sstep_frames_mono (t : SOSCeleton) (e : Event) :
    t.frames ≤ (t.sstep e).frames := by
  cases e with
  | lost_user u =>
    simp only [SOSCeleton.sstep]
    split <;> simp
  | joint L u x y z =>
    simp only [SOSCeleton.sstep]
    split <;> simp
  | _ => simp [SOSCeleton.sstep]

theorem sstep_stamps_lt (t : SOSCeleton) (e : Event) (h : StampsLT t) :
    StampsLT (t.sstep e) := by
  cases e with
  | lost_user u =>
    simp only [SOSCeleton.sstep]
    split
    · intro p hp
      exact h p (mem_mapErase _ _ _ hp)
    · exact h
  | joint L u x y z =>
    simp only [SOSCeleton.sstep]
    split
    · intro p hp
      rcases mem_mapUpd _ _ _ _ hp with rfl | hold
      · simp
      · exact Nat.lt_succ_of_lt (h p hold)
    · exact h
  | drain =>
    intro p hp
    simp [SOSCeleton.sstep] at hp
  | new_user u => exact h
  | new_skel u => exact h
  | orient L u m0 m1 m2 m3 m4 m5 m6 m7 m8 => exact h
  | getUsers => exact h
  | setRealWorld b => exact h
  | unknown => exact h

theorem sstep_stamps_ge (f : Nat) (t : SOSCeleton) (e : Event) (h : StampsGE f t) :
    StampsGE f (t.sstep e) := by
  obtain ⟨hf, hu⟩ := h
  refine ⟨le_trans hf (sstep_frames_mono t e), ?_⟩
  cases e with
  | lost_user u =>
    simp only [SOSCeleton.sstep]
    split
    · intro p hp
      exact hu p (mem_mapErase _ _ _ hp)
    · exact hu
  | joint L u x y z =>
    simp only [SOSCeleton.sstep]
    split
    · intro p hp
      rcases mem_mapUpd _ _ _ _ hp with rfl | hold
      · simpa using hf
      · exact hu p hold
    · exact hu
  | drain =>
    intro p hp
    simp [SOSCeleton.sstep] at hp
  | new_user u => exact hu
  | new_skel u => exact hu
  | orient L u m0 m1 m2 m3 m4 m5 m6 m7 m8 => exact hu
  | getUsers => exact hu
  | setRealWorld b => exact hu
  | unknown => exact hu

theorem srun_stamps_lt (t : SOSCeleton) (es : List Event) (h : StampsLT t) :
    StampsLT (t.srun es) := by
  induction es generalizing t with
  | nil => exact h
  | cons e rest ih => exact ih _ (sstep_stamps_lt t e h)

theorem srun_stamps_ge (f : Nat) (t : SOSCeleton) (es : List Event) (h : StampsGE f t) :
    StampsGE f (t.srun es) := by
  induction es generalizing t with
  | nil => exact h
  | cons e rest ih => exact ih _ (sstep_stamps_ge f t e h)

/-! ### Real-machine step facts used for C2 and C10 -/

theorem step_frames_mono (s : OSCeleton) (e : Event) :
    s.frames ≤ (s.step e).frames := by
  cases e with
  | lost_user u =>
    simp only [OSCeleton.step, OSCeleton.lost_user_callback]
    split <;> simp
  | joint L u x y z =>
    simp only [OSCeleton.step, joint_callback_char]
    split <;> simp
  | orient L u m0 m1 m2 m3 m4 m5 m6 m7 m8 =>
    simp [OSCeleton.step, orient_callback_char]
  | _ => simp [OSCeleton.step, OSCeleton.new_user_callback,
      OSCeleton.new_skeleton_callback, OSCeleton.do_nothing_callback,
      OSCeleton.get_new_skeletons]

theorem run_frames_mono (s : OSCeleton) (es : List Event) :
    s.frames ≤ (s.run es).frames := by
  induction es generalizing s with
  | nil => exact le_refl _
  | cons e rest ih => exact le_trans (step_frames_mono s e) (ih (s.step e))

theorem step_users_nil (s : OSCeleton) (e : Event) (h1 : s.users = [])
    (h2 : (s.step e).frames = s.frames) : (s.step e).users = [] := by
  cases e with
  | lost_user u =>
    simp only [OSCeleton.step, OSCeleton.lost_user_callback]
    split
    · simp [h1, mapErase]
    · exact h1
  | joint L u x y z =>
    simp only [OSCeleton.step, joint_callback_char] at h2 ⊢
    rcases hc : (mapLookup (curSkel s u).joints L).isSome with _ | _
    · simp only [hc, Bool.false_eq_true, if_false]
      exact h1
    · simp only [hc, if_true] at h2
      exact absurd h2 (Nat.succ_ne_self s.frames)
  | orient L u m0 m1 m2 m3 m4 m5 m6 m7 m8 =>
    simp [OSCeleton.step, orient_callback_char, h1]
  | drain => simp [OSCeleton.step, OSCeleton.get_new_skeletons]
  | new_user u => exact h1
  | new_skel u => exact h1
  | getUsers => exact h1
  | setRealWorld b => exact h1
  | unknown => exact h1

theorem run_users_nil (s : OSCeleton) (es : List Event) (h1 : s.users = [])
    (h2 : (s.run es).frames = s.frames) : (s.run es).users = [] := by
  induction es generalizing s with
  | nil => exact h1
  | cons e rest ih =>
    have hrun : s.run (e :: rest) = (s.step e).run rest := rfl
    rw [hrun] at h2 ⊢
    have hmono1 := step_frames_mono s e
    have hmono2 := run_frames_mono (s.step e) rest
    have heq : (s.step e).frames = s.frames := le_antisymm (by omega) hmono1
    exact ih (s.step e) (step_users_nil s e h1 heq) (by omega)

theorem step_users_subset (s : OSCeleton) (e : Event) (h : UsersSubset s) :
    UsersSubset (s.step e) := by
  cases e with
  | new_user u =>
    intro a ha
    exact (mem_keys_mapUpd _ _ _ _).mpr (Or.inr (h a ha))
  | lost_user u =>
    simp only [OSCeleton.step, OSCeleton.lost_user_callback]
    split
    · intro a ha
      rw [mem_keys_mapErase] at ha ⊢
      exact ⟨h a ha.1, ha.2⟩
    · exact h
  | new_skel u => exact h
  | joint L u x y z =>
    simp only [OSCeleton.step, joint_callback_char]
    split
    · intro a ha
      rw [mem_keys_mapUpd] at ha
      rw [mem_keys_mapUpd]
      rcases ha with rfl | ha
      · exact Or.inl rfl
      · exact Or.inr (h a ha)
    · intro a ha
      exact (mem_keys_mapUpd _ _ _ _).mpr (Or.inr (h a ha))
  | orient L u m0 m1 m2 m3 m4 m5 m6 m7 m8 =>
    simp only [OSCeleton.step, orient_callback_char]
    intro a ha
    exact (mem_keys_mapUpd _ _ _ _).mpr (Or.inr (h a ha))
  | drain =>
    intro a ha
    simp [OSCeleton.step, OSCeleton.get_new_skeletons] at ha
  | getUsers => exact h
  | setRealWorld b => exact h
  | unknown => exact h

theorem run_users_subset (s : OSCeleton) (es : List Event) (h : UsersSubset s) :
    UsersSubset (s.run es) := by
  induction es generalizing s with
  | nil => exact h
  | cons e rest ih => exact ih _ (step_users_subset s e h)

/-! ### The claims -/

/-- Claim C9: for all points p and q, `(p + q) - q == p` — adding a point
and subtracting it again returns to p componentwise (exact in the rational
model of float arithmetic, hence within any floating tolerance). -/
theorem C9_add_sub_roundtrip (p q : Point) :
    Point.eq ((p.add q).sub q) p = true := by
  have hx : p.x + q.x - q.x = p.x := by ring
  have hy : p.y + q.y - q.y = p.y := by ring
  have hz : p.z + q.z - q.z = p.z := by ring
  simp [Point.add, Point.sub, Point.eq, hx, hy, hz]

/-- Claim C7: `Skeleton.__contains__` returns true iff every wanted label is
a key of the `joints` mapping, and the result never depends on the
`orient` (orientations) mapping. -/
theorem C7_contains_iff_all_joint_keys :
    (∀ (sk : Skeleton) (ws : List String),
        Skeleton.contains sk ws = true ↔ ∀ l ∈ ws, ∃ pt, mapLookup sk.joints l = some pt)
    ∧ ∀ (i : Nat) (j : List (String × Point)) (o1 o2 : List (String × List (List ℚ)))
        (ws : List String),
        Skeleton.contains ⟨i, j, o1⟩ ws = Skeleton.contains ⟨i, j, o2⟩ ws := by
  constructor
  · intro sk ws
    simp only [Skeleton.contains, List.all_eq_true, decide_eq_true_eq]
    constructor
    · intro h l hl
      exact (mem_keys_iff_lookup sk.joints l).mp (h l hl)
    · intro h l hl
      exact (mem_keys_iff_lookup sk.joints l).mpr (h l hl)
  · intro i j o1 o2 ws
    rfl

/-- Claim C8: the magnitude of a point is zero exactly when the point is the
origin (so the division by zero inside `normalize` is reachable exactly at
zero magnitude, and unreachable for nonzero points), and normalizing any
nonzero point yields a point of magnitude exactly 1 in the real-number
idealisation of float arithmetic. -/
theorem C8_normalize_unit (p : PointR) :
    (PointR.magnitude p = 0 ↔ p = ⟨0, 0, 0⟩)
    ∧ (p ≠ ⟨0, 0, 0⟩ → PointR.magnitude (PointR.normalize p) = 1) := by
  have hzero : PointR.magnitude p = 0 ↔ p = ⟨0, 0, 0⟩ := by
    unfold PointR.magnitude
    rw [Real.sqrt_eq_zero (by positivity)]
    constructor
    · intro h
      have hx : p.x = 0 := by nlinarith [sq_nonneg p.x, sq_nonneg p.y, sq_nonneg p.z]
      have hy : p.y = 0 := by nlinarith [sq_nonneg p.x, sq_nonneg p.y, sq_nonneg p.z]
      have hz : p.z = 0 := by nlinarith [sq_nonneg p.x, sq_nonneg p.y, sq_nonneg p.z]
      cases p
      simp_all
    · rintro rfl
      norm_num
  refine ⟨hzero, ?_⟩
  intro hne
  have hmag : PointR.magnitude p ≠ 0 := fun h => hne (hzero.mp h)
  have hpos : 0 < PointR.magnitude p :=
    lt_of_le_of_ne (Real.sqrt_nonneg _) (Ne.symm hmag)
  have hS : 0 < p.x ^ 2 + p.y ^ 2 + p.z ^ 2 :=
    Real.sqrt_pos.mp (by simpa [PointR.magnitude] using hpos)
  unfold PointR.normalize PointR.magnitude
  rw [div_pow, div_pow, div_pow, div_add_div_same, div_add_div_same]
  rw [Real.sq_sqrt hS.le, div_self (ne_of_gt hS), Real.sqrt_one]

/-- Witness for C8 at Point(1, 2, 3): it is nonzero and its normalization
has magnitude exactly 1. -/
theorem C8_witness :
    PointR.magnitude (PointR.normalize ⟨1, 2, 3⟩) = 1 :=
  (C8_normalize_unit ⟨1, 2, 3⟩).2 (by
    intro h
    have hx : (1 : ℝ) = 0 := congrArg PointR.x h
    norm_num at hx)

/-- Claim C3 counterexample: a lost-user event for a user with no tracked
state (the initial state, user 5) does NOT append the user to the lost-user
log — the `KeyError` from `del self._users[args[0]]` is raised before the
append and caught, so the handler is a complete no-op. -/
theorem C3_counterexample :
    (OSCeleton.init.lost_user_callback 5).lostUsers ≠ OSCeleton.init.lostUsers ++ [5] := by
  simp [OSCeleton.init, OSCeleton.lost_user_callback, mapLookup]

/-- Claim C3 (amended): when the user has an in-progress entry, the
lost-user handler deletes it, appends the user to the lost-user log, and
deletes the completed entry when present (its absence is not an error), all
without touching other users; when the user has NO in-progress entry the
handler is a complete no-op — in particular the user is not appended to the
log. -/
theorem C3_lost_user :
    ∀ (s : OSCeleton) (u : Nat),
      ((mapLookup s._users u).isSome = true →
        mapLookup (s.lost_user_callback u)._users u = none
        ∧ mapLookup (s.lost_user_callback u).users u = none
        ∧ (s.lost_user_callback u).lostUsers = s.lostUsers ++ [u]
        ∧ ∀ v, v ≠ u →
            mapLookup (s.lost_user_callback u)._users v = mapLookup s._users v
            ∧ mapLookup (s.lost_user_callback u).users v = mapLookup s.users v)
      ∧ (mapLookup s._users u = none → s.lost_user_callback u = s) := by
  intro s u
  constructor
  · intro h
    simp only [OSCeleton.lost_user_callback, h, if_true]
    refine ⟨by simp [mapLookup_mapErase], by simp [mapLookup_mapErase], by trivial, ?_⟩
    intro v hv
    exact ⟨by simp [mapLookup_mapErase, hv], by simp [mapLookup_mapErase, hv]⟩
  · intro h
    simp [OSCeleton.lost_user_callback, h]

/-- Claim C4 counterexample: a second new-user event for a user that is
already assembling does NOT leave the existing in-progress joints unchanged
— `new_user_callback` unconditionally installs a fresh empty skeleton.  Here
user 1 has joint "head" in progress and the new-user event erases it. -/
theorem C4_counterexample :
    mapLookup ((OSCeleton.init.joint_callback "head" 1 1 2 3).new_user_callback 1)._users 1
      ≠ mapLookup (OSCeleton.init.joint_callback "head" 1 1 2 3)._users 1 := by
  simp [OSCeleton.init, OSCeleton.joint_callback, OSCeleton.new_user_callback,
    mapLookup, mapUpd, jointPoint, Skeleton.clear]

/-- Claim C4 (amended): a new-user event always installs a fresh empty
in-progress snapshot for the user — overwriting, not preserving, any
in-progress joints and orientations the user already had — leaves every
other user's in-progress entry unchanged, and never modifies the completed
map, the frame counter or the lost-user log. -/
theorem C4_new_user_overwrites :
    ∀ (s : OSCeleton) (u : Nat),
      mapLookup (s.new_user_callback u)._users u = some ⟨u, [], []⟩
      ∧ (s.new_user_callback u).users = s.users
      ∧ (s.new_user_callback u).frames = s.frames
      ∧ (s.new_user_callback u).lostUsers = s.lostUsers
      ∧ ∀ v, v ≠ u →
          mapLookup (s.new_user_callback u)._users v = mapLookup s._users v := by
  intro s u
  refine ⟨?_, rfl, rfl, rfl, ?_⟩
  · simp [OSCeleton.new_user_callback, mapLookup_mapUpd]
  · intro v hv
    simp [OSCeleton.new_user_callback, mapLookup_mapUpd, hv]

/-- Claim C5: every joint message stores, under its label in the user's
in-progress joints, exactly the raw triple in normalized mode and exactly
`(1280 − x·2560, 960 − y·1920, −z·1280)` in real-world (physical
millimetres) mode; in particular raw `(1/2, 1/2, 1/2)` in real-world mode is
stored as `(0, 0, −640)`. -/
theorem C5_coordinate_transform :
    (∀ (s : OSCeleton) (L : String) (u : Nat) (x y z : ℚ),
        ∃ sk, mapLookup (s.joint_callback L u x y z)._users u = some sk
          ∧ mapLookup sk.joints L =
              some (if s.realWorld then ⟨1280 - x * 2560, 960 - y * 1920, -z * 1280⟩
                    else ⟨x, y, z⟩))
    ∧ ∃ sk, mapLookup ((OSCeleton.mk [] [] 0 [] true).joint_callback "head" 1
          (1/2) (1/2) (1/2))._users 1 = some sk
        ∧ mapLookup sk.joints "head" = some ⟨0, 0, -640⟩ := by
  have hmain : ∀ (s : OSCeleton) (L : String) (u : Nat) (x y z : ℚ),
      ∃ sk, mapLookup (s.joint_callback L u x y z)._users u = some sk
        ∧ mapLookup sk.joints L =
            some (if s.realWorld then ⟨1280 - x * 2560, 960 - y * 1920, -z * 1280⟩
                  else ⟨x, y, z⟩) := by
    intro s L u x y z
    rw [joint_callback_char]
    by_cases h : (mapLookup (curSkel s u).joints L).isSome = true
    · rw [if_pos h]
      refine ⟨⟨(curSkel s u).id, [(L, jointPoint s.realWorld x y z)], []⟩, ?_, ?_⟩
      · simp [mapLookup_mapUpd]
      · simp [mapLookup, jointPoint]
    · rw [if_neg h]
      refine ⟨⟨(curSkel s u).id,
          mapUpd (curSkel s u).joints L (jointPoint s.realWorld x y z),
          (curSkel s u).orient⟩, ?_, ?_⟩
      · simp [mapLookup_mapUpd]
      · simp [mapLookup_mapUpd, jointPoint]
  refine ⟨hmain, ?_⟩
  obtain ⟨sk, hsk, hpt⟩ := hmain (OSCeleton.mk [] [] 0 [] true) "head" 1 (1/2) (1/2) (1/2)
  refine ⟨sk, hsk, ?_⟩
  rw [hpt]
  norm_num

/-- Claim C6: an orientation message stores the nine matrix values as three
3-component rows under the label in the (auto-created) in-progress snapshot
of the user, and leaves the frame counter, the completed map, the lost-user
log, every user's in-progress joints mapping and every other user's entry
unchanged — it never triggers a promotion, even when the label already has
an orientation entry. -/
theorem C6_orient_stores_rows_no_promotion :
    ∀ (s : OSCeleton) (L : String) (u : Nat) (m0 m1 m2 m3 m4 m5 m6 m7 m8 : ℚ),
      (s.orient_callback L u m0 m1 m2 m3 m4 m5 m6 m7 m8).frames = s.frames
      ∧ (s.orient_callback L u m0 m1 m2 m3 m4 m5 m6 m7 m8).users = s.users
      ∧ (s.orient_callback L u m0 m1 m2 m3 m4 m5 m6 m7 m8).lostUsers = s.lostUsers
      ∧ (∃ sk, mapLookup (s.orient_callback L u m0 m1 m2 m3 m4 m5 m6 m7 m8)._users u = some sk
          ∧ mapLookup sk.orient L = some [[m0, m1, m2], [m3, m4, m5], [m6, m7, m8]]
          ∧ sk.joints = (curSkel s u).joints)
      ∧ ∀ v, v ≠ u →
          mapLookup (s.orient_callback L u m0 m1 m2 m3 m4 m5 m6 m7 m8)._users v
            = mapLookup s._users v := by
  intro s L u m0 m1 m2 m3 m4 m5 m6 m7 m8
  rw [orient_callback_char]
  refine ⟨rfl, rfl, rfl,
    ⟨⟨(curSkel s u).id, (curSkel s u).joints,
        mapUpd (curSkel s u).orient L [[m0, m1, m2], [m3, m4, m5], [m6, m7, m8]]⟩,
      by simp [mapLookup_mapUpd], by simp [mapLookup_mapUpd], rfl⟩, ?_⟩
  intro v hv
  simp [mapLookup_mapUpd, hv]

/-- Claim C1: when the in-progress snapshot of user `u` does not yet hold
joint `L`, a first joint message for `(L, u)` performs no promotion, and a
second joint message for `(L, u)` with no other joint messages in between
performs exactly one promotion: the frame counter rises by exactly one, the
in-progress snapshot (joints deep-copied) is stored as `u`'s completed
snapshot — overwriting any prior unconsumed one — and holds the first
message's stored value under `L`, while the new in-progress snapshot holds
the second message's value as its sole joint. -/
theorem C1_duplicate_joint_promotes (s : OSCeleton) (L : String) (u : Nat)
    (x1 y1 z1 x2 y2 z2 : ℚ)
    (hfresh : mapLookup (curSkel s u).joints L = none) :
    (s.joint_callback L u x1 y1 z1).frames = s.frames
    ∧ ((s.joint_callback L u x1 y1 z1).joint_callback L u x2 y2 z2).frames = s.frames + 1
    ∧ (∃ pk, mapLookup ((s.joint_callback L u x1 y1 z1).joint_callback L u x2 y2 z2).users u
          = some pk
        ∧ pk.joints = (curSkel (s.joint_callback L u x1 y1 z1) u).copy_joints
        ∧ pk.orient = (curSkel (s.joint_callback L u x1 y1 z1) u).orient
        ∧ mapLookup pk.joints L = some (jointPoint s.realWorld x1 y1 z1))
    ∧ (∃ sk2, mapLookup ((s.joint_callback L u x1 y1 z1).joint_callback L u x2 y2 z2)._users u
          = some sk2
        ∧ sk2.joints = [(L, jointPoint s.realWorld x2 y2 z2)]
        ∧ sk2.orient = []) := by
  have hchar1 : s.joint_callback L u x1 y1 z1 =
      ⟨s.users,
       mapUpd s._users u ⟨(curSkel s u).id,
          mapUpd (curSkel s u).joints L (jointPoint s.realWorld x1 y1 z1),
          (curSkel s u).orient⟩,
       s.frames, s.lostUsers, s.realWorld⟩ := by
    rw [joint_callback_char, if_neg (by simp [hfresh])]
  have hcur1 : curSkel (s.joint_callback L u x1 y1 z1) u =
      ⟨(curSkel s u).id,
       mapUpd (curSkel s u).joints L (jointPoint s.realWorld x1 y1 z1),
       (curSkel s u).orient⟩ := by
    rw [hchar1]
    simp [curSkel, mapLookup_mapUpd]
  have hhit : (mapLookup (curSkel (s.joint_callback L u x1 y1 z1) u).joints L).isSome = true := by
    rw [hcur1]
    simp [mapLookup_mapUpd]
  have hrw1 : (s.joint_callback L u x1 y1 z1).realWorld = s.realWorld := by
    rw [hchar1]
  have hchar2 := joint_callback_char (s.joint_callback L u x1 y1 z1) L u x2 y2 z2
  rw [if_pos hhit, hrw1] at hchar2
  constructor
  · rw [hchar1]
  constructor
  · rw [hchar2, hchar1]
  constructor
  · refine ⟨⟨((mapLookup (s.joint_callback L u x1 y1 z1).users u).getD ⟨u, [], []⟩).id,
        (curSkel (s.joint_callback L u x1 y1 z1) u).copy_joints,
        (curSkel (s.joint_callback L u x1 y1 z1) u).orient⟩,
      by rw [hchar2]; simp [mapLookup_mapUpd], rfl, rfl, ?_⟩
    rw [copy_joints_eq, hcur1]
    simp [mapLookup_mapUpd]
  · exact ⟨⟨(curSkel (s.joint_callback L u x1 y1 z1) u).id,
        [(L, jointPoint s.realWorld x2 y2 z2)], []⟩,
      by rw [hchar2]; simp [mapLookup_mapUpd], rfl, rfl⟩

/-- Witness for C1: in the initial state (user 1 unseen, so its in-progress
snapshot holds no joint "head"), two "head" joint messages promote exactly
once and the completed snapshot holds the first coordinates. -/
theorem C1_witness :
    ((OSCeleton.init.joint_callback "head" 1 1 2 3).joint_callback "head" 1 4 5 6).frames
        = OSCeleton.init.frames + 1
    ∧ (∃ pk, mapLookup
          ((OSCeleton.init.joint_callback "head" 1 1 2 3).joint_callback "head" 1 4 5 6).users 1
          = some pk
        ∧ mapLookup pk.joints "head" = some (jointPoint OSCeleton.init.realWorld 1 2 3)) := by
  have h := C1_duplicate_joint_promotes OSCeleton.init "head" 1 1 2 3 4 5 6
    (by simp [curSkel, OSCeleton.init, mapLookup])
  obtain ⟨-, h2, ⟨pk, hpk, -, -, hv⟩, -⟩ := h
  exact ⟨h2, pk, hpk, hv⟩

/-- Claim C10: in every state reachable from the initial aggregator state by
any sequence of handler and accessor calls, every user with an unconsumed
completed snapshot also has an in-progress snapshot, so `get_users` (the
active-user listing) always includes every user with a pending completed
snapshot. -/
theorem C10_completed_subset_inprogress (es : List Event) (u : Nat)
    (h : u ∈ (OSCeleton.init.run es).users.map Prod.fst) :
    u ∈ (OSCeleton.init.run es).get_users := by
  have hinv : UsersSubset (OSCeleton.init.run es) := by
    apply run_users_subset
    intro a ha
    simp [OSCeleton.init] at ha
  exact hinv u h

/-- Witness for C10: after two "head" joint messages for user 1 (one
promotion), user 1 has a pending completed snapshot and is listed among the
active users. -/
theorem C10_witness :
    1 ∈ (OSCeleton.init.run
        [Event.joint "head" 1 0 0 0, Event.joint "head" 1 0 0 0]).users.map Prod.fst
    ∧ 1 ∈ (OSCeleton.init.run
        [Event.joint "head" 1 0 0 0, Event.joint "head" 1 0 0 0]).get_users :=
  ⟨by decide, C10_completed_subset_inprogress
    [Event.joint "head" 1 0 0 0, Event.joint "head" 1 0 0 0] 1 (by decide)⟩

/-- Claim C2: `get_new_skeletons` returns all currently-unconsumed completed
snapshots and empties the completed map in one pure step; a drain directly
after a drain returns nothing; after any trace, a further drain that follows
no promotion (the frame counter is unchanged) returns the empty sequence;
and, via the stamp-instrumented machine that projects onto the real one, the
snapshots returned by a drain and by any later drain stem from disjoint sets
of promotions — no completed snapshot is ever returned by two distinct
calls. -/
theorem C2_drain_unique_and_empty :
    (∀ s : OSCeleton, s.get_new_skeletons.1 = s.users.map Prod.snd
        ∧ s.get_new_skeletons.2.users = [])
    ∧ (∀ s : OSCeleton, s.get_new_skeletons.2.get_new_skeletons.1 = [])
    ∧ (∀ es1 es2 : List Event,
        (OSCeleton.run (OSCeleton.init.run es1).get_new_skeletons.2 es2).frames
            = (OSCeleton.init.run es1).frames →
        (OSCeleton.run (OSCeleton.init.run es1).get_new_skeletons.2 es2).get_new_skeletons.1
            = [])
    ∧ (∀ es1 es2 : List Event,
        (SOSCeleton.init.srun es1).toOSCeleton = OSCeleton.init.run es1
        ∧ (((SOSCeleton.init.srun es1).sstep Event.drain).srun es2).toOSCeleton
            = OSCeleton.run (OSCeleton.init.run es1).get_new_skeletons.2 es2
        ∧ List.Disjoint
            ((SOSCeleton.init.srun es1).users.map (fun p => p.2.1))
            ((((SOSCeleton.init.srun es1).sstep Event.drain).srun es2).users.map
              (fun p => p.2.1))) := by
  refine ⟨fun s => ⟨rfl, rfl⟩, fun s => rfl, ?_, ?_⟩
  · intro es1 es2 hf
    have h := run_users_nil (OSCeleton.init.run es1).get_new_skeletons.2 es2 rfl hf
    show (OSCeleton.run (OSCeleton.init.run es1).get_new_skeletons.2 es2).users.map Prod.snd = []
    rw [h]
    rfl
  · intro es1 es2
    have hproj1 : (SOSCeleton.init.srun es1).toOSCeleton = OSCeleton.init.run es1 := by
      rw [toOSCeleton_srun]
      rfl
    have hproj2 : (((SOSCeleton.init.srun es1).sstep Event.drain).srun es2).toOSCeleton
        = OSCeleton.run (OSCeleton.init.run es1).get_new_skeletons.2 es2 := by
      rw [toOSCeleton_srun, toOSCeleton_sstep, hproj1]
      rfl
    refine ⟨hproj1, hproj2, ?_⟩
    have hlt : StampsLT (SOSCeleton.init.srun es1) := by
      apply srun_stamps_lt
      intro p hp
      simp [SOSCeleton.init] at hp
    have hge : StampsGE (SOSCeleton.init.srun es1).frames
        (((SOSCeleton.init.srun es1).sstep Event.drain).srun es2) := by
      apply srun_stamps_ge
      constructor
      · exact le_refl _
      · intro p hp
        simp [SOSCeleton.sstep] at hp
    intro a ha hb
    simp only [List.mem_map] at ha hb
    obtain ⟨p, hp, hpa⟩ := ha
    obtain ⟨q, hq, hqa⟩ := hb
    have h1 : a < (SOSCeleton.init.srun es1).frames := hpa ▸ hlt p hp
    have h2 : (SOSCeleton.init.srun es1).frames ≤ a := hqa ▸ hge.2 q hq
    omega

end PyOSCeleton
